import Mathlib

/-!
# Verification of the bouncing-ball session coordinator

This development embeds the per-connection session coordinator of the
WebRTC + WebTransport bouncing-ball repository and proves its documented
properties.  The client-side code (ball detection, SDP rewriting) is
embedded from the JavaScript sources; the server-side components
(PhysicsEngine, SignalingSession, CoordinateFeedbackChannel) are not part
of the checked-in sources, so they are modelled from the written design
(sections 4.1, 4.3, 4.4 of the design document), as indicated on each
definition.
-/

namespace Nimble

/-! ## PhysicsEngine

Modelled from the spec (section 4.1): the server sources are absent from
the repository snapshot; only the design document describes `tick(dt)`.
Real numbers are modelled as rationals. -/

/-- Modelled from the spec: per-session physics configuration, immutable
for a session lifetime (section 3, PhysicsConfig). -/
structure PhysicsConfig where
  gravity : ℚ
  restitution : ℚ
deriving Repr, DecidableEq

/-- Modelled from the spec: ball state with position, velocity, radius and
frame bounds (section 3, BallState).  The color constant is irrelevant to
the dynamics and omitted. -/
structure BallState where
  x : ℚ
  y : ℚ
  vx : ℚ
  vy : ℚ
  radius : ℚ
  width : ℚ
  height : ℚ
deriving Repr, DecidableEq

/-- Modelled from the spec: the tick interval as handed to `tick`.  The
spec demands rejection of non-finite intervals, which a rational cannot
represent, so the non-finite inputs are adjoined explicitly. -/
inductive TickDt where
  | fin (q : ℚ)
  | nan
  | posInf
  | negInf
deriving Repr, DecidableEq

/-- Modelled from the spec: PhysicsError taxonomy entry for a rejected
tick interval (section 7). -/
inductive PhysicsError where
  | nonPositiveDt
  | nonFiniteDt
deriving Repr, DecidableEq

/-- Modelled from the spec (section 4.1): integrate, then resolve wall
collisions independently per axis by clamp-and-flip.  The two wall checks
of an axis are applied in the order the spec lists them. -/
def tickCore (cfg : PhysicsConfig) (s : BallState) (dt : ℚ) : BallState :=
  let vy1 := s.vy + cfg.gravity * dt
  let x1 := s.x + s.vx * dt
  let y1 := s.y + vy1 * dt
  let xa := if x1 - s.radius < 0 then s.radius else x1
  let vxa := if x1 - s.radius < 0 then -s.vx * cfg.restitution else s.vx
  let xb := if xa + s.radius > s.width then s.width - s.radius else xa
  let vxb := if xa + s.radius > s.width then -vxa * cfg.restitution else vxa
  let ya := if y1 - s.radius < 0 then s.radius else y1
  let vya := if y1 - s.radius < 0 then -vy1 * cfg.restitution else vy1
  let yb := if ya + s.radius > s.height then s.height - s.radius else ya
  let vyb := if ya + s.radius > s.height then -vya * cfg.restitution else vya
  { s with x := xb, vx := vxb, y := yb, vy := vyb }

/-- Modelled from the spec (sections 4.1 and 7): `tick(dt)` rejects a
non-positive or non-finite `dt` with a PhysicsError and otherwise returns
the advanced state. -/
def tick (cfg : PhysicsConfig) (s : BallState) (dt : TickDt) : Except PhysicsError BallState :=
  match dt with
  | .fin q => if q ≤ 0 then .error .nonPositiveDt else .ok (tickCore cfg s q)
  | _ => .error .nonFiniteDt

/-- Modelled from the spec (section 7): on a PhysicsError the tick is
skipped, leaving the state unchanged. -/
def applyTick (cfg : PhysicsConfig) (s : BallState) (dt : TickDt) : BallState :=
  match tick cfg s dt with
  | .ok s1 => s1
  | .error _ => s

/-- Iterated session ticks with the skip-on-error semantics. -/
def tickIter (cfg : PhysicsConfig) (dt : TickDt) : ℕ → BallState → BallState
  | 0, s => s
  | n + 1, s => applyTick cfg (tickIter cfg dt n s) dt

/-- The position invariant of section 3: the ball center stays within
`[radius, width - radius] × [radius, height - radius]`. -/
def inBounds (s : BallState) : Prop :=
  s.radius ≤ s.x ∧ s.x ≤ s.width - s.radius ∧ s.radius ≤ s.y ∧ s.y ≤ s.height - s.radius

instance (s : BallState) : Decidable (inBounds s) := by
  unfold inBounds; infer_instance

/-- Pre-clamp vertical velocity after gravity integration. -/
def preVy (cfg : PhysicsConfig) (s : BallState) (dt : ℚ) : ℚ := s.vy + cfg.gravity * dt

/-- Pre-clamp horizontal position after integration. -/
def preX (s : BallState) (dt : ℚ) : ℚ := s.x + s.vx * dt

/-- Pre-clamp vertical position after integration. -/
def preY (cfg : PhysicsConfig) (s : BallState) (dt : ℚ) : ℚ := s.y + preVy cfg s dt * dt

theorem tickCore_radius (cfg : PhysicsConfig) (s : BallState) (dt : ℚ) :
    (tickCore cfg s dt).radius = s.radius := rfl

theorem tickCore_width (cfg : PhysicsConfig) (s : BallState) (dt : ℚ) :
    (tickCore cfg s dt).width = s.width := rfl

theorem tickCore_height (cfg : PhysicsConfig) (s : BallState) (dt : ℚ) :
    (tickCore cfg s dt).height = s.height := rfl

theorem applyTick_pos (cfg : PhysicsConfig) (s : BallState) {dt : ℚ} (h : 0 < dt) :
    applyTick cfg s (.fin dt) = tickCore cfg s dt := by
  simp [applyTick, tick, not_le.mpr h]

theorem tickCore_inBounds (cfg : PhysicsConfig) (s : BallState) (dt : ℚ)
    (hw : s.radius ≤ s.width / 2) (hh : s.radius ≤ s.height / 2) :
    inBounds (tickCore cfg s dt) := by
  have hw2 : s.radius + s.radius ≤ s.width := by linarith
  have hh2 : s.radius + s.radius ≤ s.height := by linarith
  unfold tickCore inBounds
  dsimp only
  split_ifs <;> refine ⟨?_, ?_, ?_, ?_⟩ <;> linarith

theorem tickIter_radius (cfg : PhysicsConfig) (dt : TickDt) (s : BallState) :
    ∀ n, (tickIter cfg dt n s).radius = s.radius ∧
      (tickIter cfg dt n s).width = s.width ∧
      (tickIter cfg dt n s).height = s.height := by
  intro n
  induction n with
  | zero => exact ⟨rfl, rfl, rfl⟩
  | succ n ih =>
    have : tickIter cfg dt (n + 1) s = applyTick cfg (tickIter cfg dt n s) dt := rfl
    rw [this]
    unfold applyTick
    cases hdt : tick cfg (tickIter cfg dt n s) dt with
    | ok s1 =>
      cases dt with
      | fin q =>
        unfold tick at hdt
        by_cases hq : q ≤ 0
        · simp [hq] at hdt
        · simp [hq] at hdt
          subst hdt
          simpa [tickCore_radius, tickCore_width, tickCore_height] using ih
      | nan => simp [tick] at hdt
      | posInf => simp [tick] at hdt
      | negInf => simp [tick] at hdt
    | error e => exact ih

/-- C1: for every valid BallState (position within bounds, positive radius
that fits the frame) and every positive tick interval, the position lies
within `[radius, width - radius] × [radius, height - radius]` after every
tick, for any number of consecutive ticks. -/
theorem tick_stays_in_bounds (cfg : PhysicsConfig) (s : BallState) (dt : ℚ)
    (hr : 0 < s.radius) (hw : s.radius ≤ s.width / 2) (hh : s.radius ≤ s.height / 2)
    (hs : inBounds s) (hdt : 0 < dt) :
    ∀ n : ℕ, inBounds (tickIter cfg (.fin dt) (n + 1) s) := by
  intro n
  have hstep : tickIter cfg (.fin dt) (n + 1) s
      = tickCore cfg (tickIter cfg (.fin dt) n s) dt := by
    show applyTick cfg (tickIter cfg (.fin dt) n s) (.fin dt) = _
    exact applyTick_pos cfg _ hdt
  rw [hstep]
  obtain ⟨hrad, hwid, hhei⟩ := tickIter_radius cfg (.fin dt) s n
  exact tickCore_inBounds cfg _ dt (by rw [hrad, hwid]; exact hw) (by rw [hrad, hhei]; exact hh)

/-- Witness for C1 at the Scenario A parameters of the spec. -/
theorem tick_stays_in_bounds_witness :
    (0 : ℚ) < 20 ∧ (20 : ℚ) ≤ 640 / 2 ∧ (20 : ℚ) ≤ 480 / 2 ∧
      inBounds ⟨100, 100, 50, -30, 20, 640, 480⟩ ∧ (0 : ℚ) < 1 / 30 ∧
      inBounds (tickIter ⟨49 / 5, 1⟩ (.fin (1 / 30)) 1 ⟨100, 100, 50, -30, 20, 640, 480⟩) :=
  ⟨by norm_num, by norm_num, by norm_num, by norm_num [inBounds], by norm_num,
    tick_stays_in_bounds ⟨49 / 5, 1⟩ ⟨100, 100, 50, -30, 20, 640, 480⟩ (1 / 30)
      (by norm_num) (by norm_num) (by norm_num) (by norm_num [inBounds]) (by norm_num) 0⟩

/-- C2 (amended): for a valid geometry and a positive tick interval,
`tick(dt)` succeeds with the integrate-then-clamp result, and each wall
collision follows the clamp-and-flip rule.  The bounce trigger is the
strict comparison of the algorithm (`y + radius > height` pre-clamp), not
the non-strict one: at exact tangency no bounce occurs. -/
theorem tick_algorithm_and_bounce (cfg : PhysicsConfig) (s : BallState) (dt : ℚ)
    (hdt : 0 < dt) (hw : s.radius ≤ s.width / 2) (hh : s.radius ≤ s.height / 2) :
    tick cfg s (.fin dt) = .ok (tickCore cfg s dt) ∧
    (preX s dt - s.radius < 0 →
      (tickCore cfg s dt).x = s.radius ∧
        (tickCore cfg s dt).vx = -s.vx * cfg.restitution) ∧
    (preX s dt + s.radius > s.width →
      (tickCore cfg s dt).x = s.width - s.radius ∧
        (tickCore cfg s dt).vx = -s.vx * cfg.restitution) ∧
    (preY cfg s dt - s.radius < 0 →
      (tickCore cfg s dt).y = s.radius ∧
        (tickCore cfg s dt).vy = -(preVy cfg s dt) * cfg.restitution) ∧
    (preY cfg s dt + s.radius > s.height →
      (tickCore cfg s dt).y = s.height - s.radius ∧
        (tickCore cfg s dt).vy = -(preVy cfg s dt) * cfg.restitution) ∧
    (¬ preX s dt - s.radius < 0 → ¬ preX s dt + s.radius > s.width →
      (tickCore cfg s dt).x = preX s dt ∧ (tickCore cfg s dt).vx = s.vx) ∧
    (¬ preY cfg s dt - s.radius < 0 → ¬ preY cfg s dt + s.radius > s.height →
      (tickCore cfg s dt).y = preY cfg s dt ∧ (tickCore cfg s dt).vy = preVy cfg s dt) := by
  have hw2 : s.radius + s.radius ≤ s.width := by linarith
  have hh2 : s.radius + s.radius ≤ s.height := by linarith
  unfold preX preY preVy
  refine ⟨by simp [tick, not_le.mpr hdt], ?_, ?_, ?_, ?_, ?_, ?_⟩ <;>
    · unfold tickCore
      dsimp only
      intros
      split_ifs <;> constructor <;> first | rfl | linarith

/-- Witness for the amended C2 at a concrete bouncing configuration:
the ball meets the ceiling strictly and the velocity flips scaled by the
restitution coefficient. -/
theorem tick_algorithm_and_bounce_witness :
    (0 : ℚ) < 1 ∧ (1 : ℚ) ≤ 10 / 2 ∧ (1 : ℚ) ≤ 10 / 2 ∧
      preY ⟨0, 1 / 2⟩ ⟨5, 9, 0, 1, 1, 10, 10⟩ 1 + (1 : ℚ) > 10 ∧
      (tickCore ⟨0, 1 / 2⟩ ⟨5, 9, 0, 1, 1, 10, 10⟩ 1).y = 10 - 1 ∧
      (tickCore ⟨0, 1 / 2⟩ ⟨5, 9, 0, 1, 1, 10, 10⟩ 1).vy =
        -(preVy ⟨0, 1 / 2⟩ ⟨5, 9, 0, 1, 1, 10, 10⟩ 1) * (1 / 2) := by
  have h := tick_algorithm_and_bounce ⟨0, 1 / 2⟩ ⟨5, 9, 0, 1, 1, 10, 10⟩ 1
    (by norm_num) (by norm_num) (by norm_num)
  have hy : preY ⟨0, 1 / 2⟩ ⟨5, 9, 0, 1, 1, 10, 10⟩ 1 + (1 : ℚ) > 10 := by
    norm_num [preY, preVy]
  exact ⟨by norm_num, by norm_num, by norm_num, hy,
    (h.2.2.2.2.1 hy).1, (h.2.2.2.2.1 hy).2⟩

/-- Counterexample to C2 as stated: at exact tangency (pre-clamp
`y + radius = height`, so `y + radius ≥ height`) with upward `vy`, the
post-tick `vy` is not `-vy·restitution`; the algorithm clamps only on the
strict overshoot.  The state is valid and `dt` positive. -/
theorem bounce_ge_boundary_cex :
    inBounds ⟨5, 8, 0, 1, 1, 10, 10⟩ ∧ (0 : ℚ) < 1 ∧
      (1 : ℚ) ≤ 10 / 2 ∧ (1 : ℚ) ≤ 10 / 2 ∧
      preY ⟨0, 1 / 2⟩ ⟨5, 8, 0, 1, 1, 10, 10⟩ 1 + (1 : ℚ) ≥ 10 ∧
      preVy ⟨0, 1 / 2⟩ ⟨5, 8, 0, 1, 1, 10, 10⟩ 1 > 0 ∧
      (tickCore ⟨0, 1 / 2⟩ ⟨5, 8, 0, 1, 1, 10, 10⟩ 1).vy ≠
        -(preVy ⟨0, 1 / 2⟩ ⟨5, 8, 0, 1, 1, 10, 10⟩ 1) * (1 / 2) := by
  norm_num [inBounds, preY, preVy, tickCore]

/-- C7: `tick(dt)` rejects every non-positive or non-finite `dt` with a
PhysicsError, leaving the state unchanged when the tick is skipped, and
succeeds on every finite positive `dt`. -/
theorem tick_dt_validation (cfg : PhysicsConfig) (s : BallState) :
    (∀ q : ℚ, q ≤ 0 →
      tick cfg s (.fin q) = .error .nonPositiveDt ∧ applyTick cfg s (.fin q) = s) ∧
    (tick cfg s .nan = .error .nonFiniteDt ∧ applyTick cfg s .nan = s) ∧
    (tick cfg s .posInf = .error .nonFiniteDt ∧ applyTick cfg s .posInf = s) ∧
    (tick cfg s .negInf = .error .nonFiniteDt ∧ applyTick cfg s .negInf = s) ∧
    (∀ q : ℚ, 0 < q → tick cfg s (.fin q) = .ok (tickCore cfg s q)) := by
  refine ⟨fun q hq => ?_, ⟨rfl, rfl⟩, ⟨rfl, rfl⟩, ⟨rfl, rfl⟩, fun q hq => ?_⟩
  · constructor
    · simp [tick, hq]
    · simp [applyTick, tick, hq]
  · simp [tick, not_le.mpr hq]

/-- Witness for C7 at a concrete configuration and interval. -/
theorem tick_dt_validation_witness :
    ((- 1 : ℚ) ≤ 0 ∧
      tick ⟨49 / 5, 1⟩ ⟨100, 100, 50, -30, 20, 640, 480⟩ (.fin (- 1)) =
        .error .nonPositiveDt ∧
      applyTick ⟨49 / 5, 1⟩ ⟨100, 100, 50, -30, 20, 640, 480⟩ (.fin (- 1)) =
        ⟨100, 100, 50, -30, 20, 640, 480⟩) ∧
    ((0 : ℚ) < 1 ∧
      tick ⟨49 / 5, 1⟩ ⟨100, 100, 50, -30, 20, 640, 480⟩ (.fin 1) =
        .ok (tickCore ⟨49 / 5, 1⟩ ⟨100, 100, 50, -30, 20, 640, 480⟩ 1)) :=
  ⟨⟨by norm_num,
    (tick_dt_validation ⟨49 / 5, 1⟩ ⟨100, 100, 50, -30, 20, 640, 480⟩).1 (- 1) (by norm_num)⟩,
   ⟨by norm_num,
    (tick_dt_validation ⟨49 / 5, 1⟩ ⟨100, 100, 50, -30, 20, 640, 480⟩).2.2.2.2 1 (by norm_num)⟩⟩

/-- C8: `tick` is deterministic: on two equal independent copies of the
state it yields identical results, depending on nothing but the state,
the configuration and `dt`. -/
theorem tick_deterministic (cfg : PhysicsConfig) (s1 s2 : BallState) (dt : TickDt)
    (h : s1 = s2) : tick cfg s1 dt = tick cfg s2 dt := by
  rw [h]

/-- Witness for C8 at a concrete state. -/
theorem tick_deterministic_witness :
    tick ⟨49 / 5, 1⟩ ⟨100, 100, 50, -30, 20, 640, 480⟩ (.fin (1 / 30)) =
      tick ⟨49 / 5, 1⟩ ⟨100, 100, 50, -30, 20, 640, 480⟩ (.fin (1 / 30)) :=
  tick_deterministic ⟨49 / 5, 1⟩ _ _ (.fin (1 / 30)) rfl

/-! ## CoordinateFeedbackChannel

Modelled from the spec (section 4.4): the server sources are absent; the
design document gives the error function and the report layout. -/

/-- Squared Euclidean distance between the reported and true positions. -/
def errSq (x y tx ty : ℚ) : ℚ := (x - tx) ^ 2 + (y - ty) ^ 2

/-- Modelled from the spec: the feedback error
`sqrt((x - true_x)^2 + (y - true_y)^2)` (section 4.4). -/
noncomputable def feedbackError (x y tx ty : ℚ) : ℝ :=
  Real.sqrt ((errSq x y tx ty : ℚ) : ℝ)

/-- Modelled from the spec: the outbound ErrorReport message (section 3,
SignalingMessage). -/
structure ErrorReport where
  error : ℝ
  client_x : ℚ
  client_y : ℚ
  true_x : ℚ
  true_y : ℚ

/-- Modelled from the spec: the report emitted for a client sample `(x,y)`
against the current true position (section 4.4). -/
noncomputable def mkErrorReport (trueX trueY x y : ℚ) : ErrorReport :=
  { error := feedbackError x y trueX trueY
    client_x := x, client_y := y, true_x := trueX, true_y := trueY }

/-- C3: the feedback error is the Euclidean distance, symmetric under
swapping reported and true points, zero exactly on agreement; and on
Scenario B of the spec, reported (320,240) against true (300,240), the
emitted report is `ErrorReport{error: 20, client_x: 320, client_y: 240,
true_x: 300, true_y: 240}`. -/
theorem feedback_error_spec :
    (∀ x y tx ty : ℚ, feedbackError x y tx ty = feedbackError tx ty x y) ∧
    (∀ x y tx ty : ℚ, feedbackError x y tx ty = 0 ↔ x = tx ∧ y = ty) ∧
    mkErrorReport 300 240 320 240 = ⟨20, 320, 240, 300, 240⟩ := by
  refine ⟨fun x y tx ty => ?_, fun x y tx ty => ?_, ?_⟩
  · unfold feedbackError errSq
    congr 1
    push_cast
    ring
  · unfold feedbackError
    rw [Real.sqrt_eq_zero']
    constructor
    · intro h
      have h0 : ((errSq x y tx ty : ℚ) : ℝ) = 0 := by
        have hn : (0 : ℝ) ≤ ((errSq x y tx ty : ℚ) : ℝ) := by
          unfold errSq
          push_cast
          positivity
        linarith
      have hq : errSq x y tx ty = 0 := by exact_mod_cast h0
      unfold errSq at hq
      have h1 : (x - tx) ^ 2 = 0 := by nlinarith [sq_nonneg (x - tx), sq_nonneg (y - ty)]
      have h2 : (y - ty) ^ 2 = 0 := by nlinarith [sq_nonneg (x - tx), sq_nonneg (y - ty)]
      constructor
      · linarith [sub_eq_zero.mp (sq_eq_zero_iff.mp h1)]
      · linarith [sub_eq_zero.mp (sq_eq_zero_iff.mp h2)]
    · rintro ⟨rfl, rfl⟩
      unfold errSq
      norm_num
  · unfold mkErrorReport
    have h20 : feedbackError 320 240 300 240 = 20 := by
      unfold feedbackError
      have h400 : ((errSq 320 240 300 240 : ℚ) : ℝ) = 400 := by
        unfold errSq
        norm_num
      rw [h400, show (400 : ℝ) = 20 ^ 2 by norm_num,
        Real.sqrt_sq (by norm_num : (0 : ℝ) ≤ 20)]
    rw [h20]

/-! ## SignalingSession

Modelled from the spec (section 4.3): the server sources are absent; the
state machine, codec policy and error taxonomy come from the design
document.  SDP content is modelled abstractly by what the responder
inspects: the optional video media section and its payload types. -/

/-- Modelled from the spec: the signaling lifecycle states
`Idle → OfferReceived → Answered → Connected → Closed` (section 4.3). -/
inductive SigState where
  | idle
  | offerReceived
  | answered
  | connected
  | closed
deriving Repr, DecidableEq

/-- Modelled from the spec: SignalingError taxonomy (section 7). -/
inductive SigError where
  | noVideoSection
  | noCommonCodec
  | renegotiationNotSupported
deriving Repr, DecidableEq

/-- Modelled from the spec: an offer SDP as the responder reads it — an
optional video media section listing its payload types (sections 4.3, 6).
`none` means the SDP has no video section. -/
structure OfferSdp where
  videoPayloadTypes : Option (List ℕ)
deriving Repr, DecidableEq

/-- Modelled from the spec: server-to-client control messages.  The error
report carries the raw coordinates; its float field is derived at
serialization time by `feedbackError`. -/
inductive OutMsg where
  | answer (sdp : OfferSdp)
  | errReport (clientX clientY trueX trueY : ℚ)
deriving Repr, DecidableEq

/-- Whether an outbound control message is an `answer`. -/
def OutMsg.isAnswer : OutMsg → Bool
  | .answer _ => true
  | .errReport _ _ _ _ => false

/-- Modelled from the spec: per-session codec configuration — the set of
payload types the server can use (section 4.3, codec policy). -/
structure SigConfig where
  supported : List ℕ
deriving Repr, DecidableEq

/-- Modelled from the spec (section 4.3): handling of an `Offer` message.
In `Idle`, a missing video section or an empty codec intersection fails
the session into `Closed` before any answer is generated; otherwise the
session answers and moves to `Answered`.  Outside `Idle` the offer is
rejected (renegotiation not supported) without changing state. -/
def handleOffer (cfg : SigConfig) (st : SigState) (sdp : OfferSdp) :
    SigState × List OutMsg × Option SigError :=
  match st with
  | .idle =>
    match sdp.videoPayloadTypes with
    | none => (.closed, [], some .noVideoSection)
    | some pts =>
      if pts.any (fun pt => cfg.supported.contains pt) then
        (.answered, [.answer sdp], none)
      else
        (.closed, [], some .noCommonCodec)
  | st => (st, [], some .renegotiationNotSupported)

/-- Modelled from the spec: the events a session reacts to — inbound
control messages, the media collaborator reporting the transport as
established, and transport closure or a fatal error (sections 4.3, 4.4). -/
inductive SessionEvent where
  | offer (sdp : OfferSdp)
  | coords (x y : ℚ)
  | established
  | transportClosed
deriving Repr, DecidableEq

/-- Modelled from the spec: one transition of the per-session machine.
`Closed` is terminal with no outgoing transitions and produces nothing;
coordinate messages produce an error report against the current ball
state; transport closure is fatal from any state. -/
def sessionStep (cfg : SigConfig) (ball : BallState) :
    SigState → SessionEvent → SigState × List OutMsg
  | .closed, _ => (.closed, [])
  | _, .transportClosed => (.closed, [])
  | st, .offer sdp => ((handleOffer cfg st sdp).1, (handleOffer cfg st sdp).2.1)
  | .answered, .established => (.connected, [])
  | st, .established => (st, [])
  | st, .coords x y => (st, [.errReport x y ball.x ball.y])

/-- A whole run of the session machine, accumulating outbound messages. -/
def sessionRun (cfg : SigConfig) (ball : BallState) :
    SigState → List SessionEvent → SigState × List OutMsg
  | st, [] => (st, [])
  | st, ev :: evs =>
    let step := sessionStep cfg ball st ev
    let rest := sessionRun cfg ball step.1 evs
    (rest.1, step.2 ++ rest.2)

/-- C5: in every state other than `Idle`, an incoming offer yields the
renegotiation SignalingError, leaves the state unchanged and produces no
answer. -/
theorem offer_rejected_outside_idle (cfg : SigConfig) (st : SigState) (sdp : OfferSdp)
    (h : st ≠ .idle) :
    handleOffer cfg st sdp = (st, [], some .renegotiationNotSupported) := by
  cases st with
  | idle => exact absurd rfl h
  | offerReceived => rfl
  | answered => rfl
  | connected => rfl
  | closed => rfl

/-- Witness for C5 in the `Answered` state. -/
theorem offer_rejected_outside_idle_witness :
    SigState.answered ≠ SigState.idle ∧
      handleOffer ⟨[102]⟩ .answered ⟨some [96]⟩ =
        (.answered, [], some .renegotiationNotSupported) :=
  ⟨by decide, offer_rejected_outside_idle ⟨[102]⟩ .answered ⟨some [96]⟩ (by decide)⟩

theorem sessionRun_closed (cfg : SigConfig) (ball : BallState) :
    ∀ evs : List SessionEvent, sessionRun cfg ball .closed evs = (.closed, []) := by
  intro evs
  induction evs with
  | nil => rfl
  | cons ev evs ih =>
    show (_, (sessionStep cfg ball .closed ev).2 ++ _) = _
    have hstep : sessionStep cfg ball .closed ev = (.closed, []) := by
      cases ev <;> rfl
    simp [sessionRun, hstep, ih]

/-- C6: an offer whose video section shares no payload type with the
supported set fails the session with the no-common-codec SignalingError
with no answer generated, ends in `Closed`, and afterwards no message —
in particular no answer — is ever sent, whatever events follow. -/
theorem no_common_codec_closes_session (cfg : SigConfig) (ball : BallState)
    (sdp : OfferSdp) (pts : List ℕ) (hv : sdp.videoPayloadTypes = some pts)
    (hno : ∀ pt ∈ pts, cfg.supported.contains pt = false) :
    handleOffer cfg .idle sdp = (.closed, [], some .noCommonCodec) ∧
    ∀ evs : List SessionEvent,
      (sessionRun cfg ball .idle (.offer sdp :: evs)).1 = .closed ∧
      ∀ m ∈ (sessionRun cfg ball .idle (.offer sdp :: evs)).2, m.isAnswer = false := by
  have hany : pts.any (fun pt => cfg.supported.contains pt) = false := by
    rw [List.any_eq_false]
    intro pt hpt hmem
    rw [hno pt hpt] at hmem
    simp at hmem
  have hoffer : handleOffer cfg .idle sdp = (.closed, [], some .noCommonCodec) := by
    unfold handleOffer
    rw [hv]
    simp only [hany]
    rfl
  refine ⟨hoffer, fun evs => ?_⟩
  have hstep : sessionStep cfg ball .idle (.offer sdp) = (.closed, []) := by
    have hred : sessionStep cfg ball .idle (.offer sdp)
        = ((handleOffer cfg .idle sdp).1, (handleOffer cfg .idle sdp).2.1) := rfl
    rw [hred, hoffer]
  have hrun : sessionRun cfg ball .idle (.offer sdp :: evs) = (.closed, []) := by
    show (_, (sessionStep cfg ball .idle (.offer sdp)).2 ++ _) = _
    simp [sessionRun, hstep, sessionRun_closed]
  rw [hrun]
  exact ⟨rfl, by intro m hm; simp at hm⟩

/-- Witness for C6: a video-only offer with payload type 96 against a
server supporting only 102, followed by further events. -/
theorem no_common_codec_closes_session_witness :
    (OfferSdp.mk (some [96])).videoPayloadTypes = some [96] ∧
    (∀ pt ∈ [96], (SigConfig.mk [102]).supported.contains pt = false) ∧
    handleOffer ⟨[102]⟩ .idle ⟨some [96]⟩ = (.closed, [], some .noCommonCodec) ∧
    (sessionRun ⟨[102]⟩ ⟨100, 100, 50, -30, 20, 640, 480⟩ .idle
        [.offer ⟨some [96]⟩, .coords 10 10, .established]).1 = .closed ∧
    ∀ m ∈ (sessionRun ⟨[102]⟩ ⟨100, 100, 50, -30, 20, 640, 480⟩ .idle
        [.offer ⟨some [96]⟩, .coords 10 10, .established]).2, m.isAnswer = false := by
  have h := no_common_codec_closes_session ⟨[102]⟩ ⟨100, 100, 50, -30, 20, 640, 480⟩
    ⟨some [96]⟩ [96] rfl (by decide)
  exact ⟨rfl, by decide, h.1, (h.2 [.coords 10 10, .established]).1,
    (h.2 [.coords 10 10, .established]).2⟩

/-! ## Client-side ball detection

Embedded from `src/client/webrtc-client.js`, `estimateBallCenterFromVideo`
(lines 548-579): scan the RGBA pixel buffer row-major, accumulate the
coordinates of green-dominant pixels, return the rounded centroid or null.
A JS `Uint8ClampedArray` read out of range yields `undefined`, whose
comparisons are false; `List.getD` with default 0 gives the same verdict
under the green predicate. -/

/-- One RGBA byte of the frame buffer: `data[i]`, 0 when out of range. -/
def pixelByte (data : List ℕ) (i : ℕ) : ℕ := data.getD i 0

/-- The green-dominance predicate of the source at pixel `(x, y)`:
`g > 150 && g > r + 60 && g > b + 60` on bytes at `(y*width+x)*4`. -/
def isGreenAt (data : List ℕ) (width : ℕ) (p : ℕ × ℕ) : Bool :=
  let i := (p.2 * width + p.1) * 4
  let r := pixelByte data i
  let g := pixelByte data (i + 1)
  let b := pixelByte data (i + 2)
  decide (g > 150) && decide (g > r + 60) && decide (g > b + 60)

/-- Loop body of the source scan: add the coordinates of a green pixel to
the running `(totalX, totalY, count)`. -/
def scanStep (data : List ℕ) (width : ℕ) (acc : ℕ × ℕ × ℕ) (p : ℕ × ℕ) : ℕ × ℕ × ℕ :=
  if isGreenAt data width p then (acc.1 + p.1, acc.2.1 + p.2, acc.2.2 + 1) else acc

/-- The nested `for y / for x` scan of the source, producing
`(totalX, totalY, count)`. -/
def scanFrame (data : List ℕ) (width height : ℕ) : ℕ × ℕ × ℕ :=
  (List.range height).foldl
    (fun acc y => (List.range width).foldl (fun acc x => scanStep data width acc (x, y)) acc)
    (0, 0, 0)

/-- `estimateBallCenterFromVideo` of `src/client/webrtc-client.js`:
null when no pixel matched, otherwise the centroid with `Math.round`
applied to each coordinate (`round q = ⌊q + 1/2⌋`, as in JS). -/
def estimateBallCenterFromVideo (data : List ℕ) (width height : ℕ) : Option (ℤ × ℤ) :=
  let t := scanFrame data width height
  if t.2.2 = 0 then none
  else some (round ((t.1 : ℚ) / (t.2.2 : ℚ)), round ((t.2.1 : ℚ) / (t.2.2 : ℚ)))

/-- All pixel coordinates of a `width × height` frame in row-major order. -/
def rowMajor (width height : ℕ) : List (ℕ × ℕ) :=
  (List.range height).flatMap (fun y => (List.range width).map (fun x => (x, y)))

/-- The coordinates of all green-dominant pixels of the frame. -/
def greenList (data : List ℕ) (width height : ℕ) : List (ℕ × ℕ) :=
  (rowMajor width height).filter (isGreenAt data width)

theorem foldl_scanStep (data : List ℕ) (width : ℕ) (L : List (ℕ × ℕ)) :
    ∀ acc : ℕ × ℕ × ℕ,
      L.foldl (scanStep data width) acc =
        (acc.1 + ((L.filter (isGreenAt data width)).map Prod.fst).sum,
         acc.2.1 + ((L.filter (isGreenAt data width)).map Prod.snd).sum,
         acc.2.2 + (L.filter (isGreenAt data width)).length) := by
  induction L with
  | nil => intro acc; simp
  | cons p L ih =>
    intro acc
    by_cases hp : isGreenAt data width p
    · rw [List.foldl_cons]
      rw [show scanStep data width acc p = (acc.1 + p.1, acc.2.1 + p.2, acc.2.2 + 1) by
        simp [scanStep, hp]]
      rw [ih]
      simp [List.filter_cons, hp]
      omega
    · rw [List.foldl_cons]
      rw [show scanStep data width acc p = acc by simp [scanStep, hp]]
      rw [ih]
      simp [List.filter_cons, hp]

theorem scanFrame_eq_rowMajor (data : List ℕ) (width height : ℕ) :
    scanFrame data width height = (rowMajor width height).foldl (scanStep data width) (0, 0, 0) := by
  unfold scanFrame rowMajor
  generalize (0, 0, 0) = acc
  induction (List.range height) generalizing acc with
  | nil => rfl
  | cons y ys ih =>
    rw [List.foldl_cons, List.flatMap_cons, List.foldl_append, ih, List.foldl_map]

theorem scanFrame_spec (data : List ℕ) (width height : ℕ) :
    scanFrame data width height =
      (((greenList data width height).map Prod.fst).sum,
       ((greenList data width height).map Prod.snd).sum,
       (greenList data width height).length) := by
  rw [scanFrame_eq_rowMajor, foldl_scanStep]
  simp [greenList]

theorem mem_rowMajor (width height : ℕ) (p : ℕ × ℕ) :
    p ∈ rowMajor width height ↔ p.1 < width ∧ p.2 < height := by
  cases p with
  | mk x y =>
    simp only [rowMajor, List.mem_flatMap, List.mem_map, List.mem_range]
    constructor
    · rintro ⟨y1, hy1, x1, hx1, heq⟩
      cases heq
      exact ⟨hx1, hy1⟩
    · rintro ⟨hx, hy⟩
      exact ⟨y, hy, x, hx, rfl⟩

theorem estimate_none_iff (data : List ℕ) (width height : ℕ) :
    estimateBallCenterFromVideo data width height = none ↔
      ∀ x y : ℕ, x < width → y < height → isGreenAt data width (x, y) = false := by
  unfold estimateBallCenterFromVideo
  rw [scanFrame_spec]
  dsimp only
  constructor
  · intro h x y hx hy
    by_cases hlen : (greenList data width height).length = 0
    · have hnil : greenList data width height = [] := List.length_eq_zero.mp hlen
      have := List.filter_eq_nil.mp hnil (x, y) ((mem_rowMajor width height (x, y)).mpr ⟨hx, hy⟩)
      simpa using this
    · simp [hlen] at h
  · intro h
    have hnil : greenList data width height = [] := by
      rw [greenList, List.filter_eq_nil]
      intro p hp
      obtain ⟨hx, hy⟩ := (mem_rowMajor width height p).mp hp
      have := h p.1 p.2 hx hy
      simp [this]
    simp [hnil]

theorem estimate_some (data : List ℕ) (width height : ℕ)
    (h : greenList data width height ≠ []) :
    estimateBallCenterFromVideo data width height =
      some (round ((((greenList data width height).map Prod.fst).sum : ℚ) /
              ((greenList data width height).length : ℚ)),
            round ((((greenList data width height).map Prod.snd).sum : ℚ) /
              ((greenList data width height).length : ℚ))) := by
  unfold estimateBallCenterFromVideo
  rw [scanFrame_spec]
  have hlen : (greenList data width height).length ≠ 0 := by
    simpa [List.length_eq_zero] using h
  simp [hlen]

/-- C4: the detector is a pure function of the pixel buffer, returning
null exactly when no pixel satisfies the green-dominance predicate, and
otherwise the centroid of all satisfying pixel coordinates, with each
coordinate rounded (`Math.round`) to an integer pixel coordinate. -/
theorem detector_centroid_spec (data : List ℕ) (width height : ℕ) :
    (estimateBallCenterFromVideo data width height = none ↔
      ∀ x y : ℕ, x < width → y < height → isGreenAt data width (x, y) = false) ∧
    (greenList data width height ≠ [] →
      estimateBallCenterFromVideo data width height =
        some (round ((((greenList data width height).map Prod.fst).sum : ℚ) /
                ((greenList data width height).length : ℚ)),
              round ((((greenList data width height).map Prod.snd).sum : ℚ) /
                ((greenList data width height).length : ℚ)))) :=
  ⟨estimate_none_iff data width height, estimate_some data width height⟩

/-- Witness for C4 on a 2x1 frame whose first pixel is pure green. -/
theorem detector_centroid_spec_witness :
    greenList [0, 200, 0, 0, 0, 0, 0, 0] 2 1 ≠ [] ∧
    estimateBallCenterFromVideo [0, 200, 0, 0, 0, 0, 0, 0] 2 1 =
      some (round ((((greenList [0, 200, 0, 0, 0, 0, 0, 0] 2 1).map Prod.fst).sum : ℚ) /
              ((greenList [0, 200, 0, 0, 0, 0, 0, 0] 2 1).length : ℚ)),
            round ((((greenList [0, 200, 0, 0, 0, 0, 0, 0] 2 1).map Prod.snd).sum : ℚ) /
              ((greenList [0, 200, 0, 0, 0, 0, 0, 0] 2 1).length : ℚ))) :=
  ⟨by decide, (detector_centroid_spec [0, 200, 0, 0, 0, 0, 0, 0] 2 1).2 (by decide)⟩

/-! ## Guarded ball detection

Embedded from `src/unnamed/part_002`, `estimateBallCenterFromVideo`
(lines 706-769): before the identical green scan, the frame is checked
for any non-near-black pixel (stride-4 loop over the buffer testing
`data[i] > 10 || data[i+1] > 10 || data[i+2] > 10`); a blank frame
returns null early.  Reads past the end of the buffer compare as false,
matching `getD` with default 0. -/

/-- The blank-frame guard loop of the source: scans the buffer with
stride 4 and reports whether any of the first three channel bytes of a
pixel exceeds 10. -/
def hasContent : List ℕ → Bool
  | [] => false
  | [r] => decide (r > 10)
  | [r, g] => decide (r > 10) || decide (g > 10)
  | [r, g, b] => decide (r > 10) || decide (g > 10) || decide (b > 10)
  | r :: g :: b :: _ :: rest =>
    decide (r > 10) || decide (g > 10) || decide (b > 10) || hasContent rest

/-- The guarded detector of `src/unnamed/part_002`: null on a blank
frame, otherwise the same scan as `estimateBallCenterFromVideo`. -/
def estimateBallCenterGuarded (data : List ℕ) (width height : ℕ) : Option (ℤ × ℤ) :=
  if hasContent data then estimateBallCenterFromVideo data width height else none

theorem getD_cons_four (a b c e : ℕ) (rest : List ℕ) (n : ℕ) :
    (a :: b :: c :: e :: rest).getD (n + 1 + 1 + 1 + 1) 0 = rest.getD n 0 := by
  simp [List.getD_cons_succ]

theorem hasContent_false_g (l : List ℕ) (h : hasContent l = false) :
    ∀ m : ℕ, l.getD (4 * m + 1) 0 ≤ 10 := by
  induction l using hasContent.induct with
  | case1 => intro m; simp [List.getD]
  | case2 r =>
    intro m
    have h0 : [r].getD (4 * m + 1) 0 = 0 := List.getD_eq_default _ _ (by simp)
    rw [h0]
    norm_num
  | case3 r g =>
    intro m
    simp only [hasContent, Bool.or_eq_false_iff, decide_eq_false_iff_not, not_lt] at h
    match m with
    | 0 => simpa using h.2
    | m + 1 =>
      have h0 : [r, g].getD (4 * (m + 1) + 1) 0 = 0 :=
        List.getD_eq_default _ _ (by simp; omega)
      rw [h0]
      norm_num
  | case4 r g b =>
    intro m
    simp only [hasContent, Bool.or_eq_false_iff, decide_eq_false_iff_not, not_lt] at h
    match m with
    | 0 => simpa using h.1.2
    | m + 1 =>
      have h0 : [r, g, b].getD (4 * (m + 1) + 1) 0 = 0 :=
        List.getD_eq_default _ _ (by simp; omega)
      rw [h0]
      norm_num
  | case5 r g b e rest ih =>
    simp only [hasContent, Bool.or_eq_false_iff, decide_eq_false_iff_not, not_lt] at h
    intro m
    match m with
    | 0 => simpa using h.1.1.2
    | m + 1 =>
      have he : 4 * (m + 1) + 1 = 4 * m + 1 + 1 + 1 + 1 + 1 := by ring
      rw [he, getD_cons_four]
      exact ih h.2 m

/-- C9: the guarded detector and the unguarded detector agree on every
pixel buffer: the blank-frame early return fires only when no pixel can
satisfy the green predicate (`g > 150` implies `g > 10`), where the
unguarded detector also returns null. -/
theorem guarded_detector_eq (data : List ℕ) (width height : ℕ) :
    estimateBallCenterGuarded data width height =
      estimateBallCenterFromVideo data width height := by
  unfold estimateBallCenterGuarded
  by_cases hc : hasContent data
  · simp [hc]
  · rw [if_neg hc]
    have hb : hasContent data = false := by simpa using hc
    symm
    rw [estimate_none_iff]
    intro x y hx hy
    have hg : pixelByte data ((y * width + x) * 4 + 1) ≤ 10 := by
      have := hasContent_false_g data hb (y * width + x)
      simpa [pixelByte, Nat.mul_comm] using this
    simp only [isGreenAt]
    have : ¬ pixelByte data ((y * width + x) * 4 + 1) > 150 := by omega
    simp [this]

/-! ## SDP rewriting: forceH264

Embedded from `src/client/webrtc-client.js`, `forceH264` (lines 33-131).
JS strings are modelled as `List Char`; the JS primitives `split`,
`join`, `startsWith`, `includes`, `trim` and the `/apt=(\d+)/` match are
embedded below with the same semantics on those lists. -/

/-- JS `split("\r\n")`: cut at each non-overlapping CRLF occurrence,
scanning left to right. -/
def splitCRLF : List Char → List (List Char)
  | [] => [[]]
  | '\r' :: '\n' :: rest => [] :: splitCRLF rest
  | c :: rest =>
    match splitCRLF rest with
    | [] => [[c]]
    | l :: ls => (c :: l) :: ls

/-- JS `join("\r\n")`. -/
def joinCRLF : List (List Char) → List Char
  | [] => []
  | [l] => l
  | l :: ls => l ++ '\r' :: '\n' :: joinCRLF ls

/-- JS `split(sep)` for a one-character separator. -/
def splitCh (sep : Char) : List Char → List (List Char)
  | [] => [[]]
  | c :: rest =>
    if c = sep then [] :: splitCh sep rest
    else
      match splitCh sep rest with
      | [] => [[c]]
      | l :: ls => (c :: l) :: ls

/-- JS `join(sep)` for a one-character separator. -/
def joinCh (sep : Char) : List (List Char) → List Char
  | [] => []
  | [l] => l
  | l :: ls => l ++ sep :: joinCh sep ls

/-- JS `includes(pat)`: substring occurrence test. -/
def containsSub (pat : List Char) : List Char → Bool
  | [] => pat.isEmpty
  | s@(_ :: rest) => pat.isPrefixOf s || containsSub pat rest

/-- JS `trim()`: strip whitespace from both ends. -/
def trimL (l : List Char) : List Char :=
  ((l.dropWhile Char.isWhitespace).reverse.dropWhile Char.isWhitespace).reverse

/-- JS `line.match(/apt=(\d+)/)`: the first maximal digit run following
an occurrence of `apt=`, scanning left to right. -/
def aptMatch : List Char → Option (List Char)
  | [] => none
  | s@(_ :: rest) =>
    if ("apt=".toList).isPrefixOf s then
      let ds := (s.drop 4).takeWhile Char.isDigit
      if ds = [] then aptMatch rest else some ds
    else aptMatch rest

/-- JS `Set.add`: append the payload type unless already present. -/
def addPT (pt : List Char) (set : List (List Char)) : List (List Char) :=
  if pt ∈ set then set else set ++ [pt]

/-- Step 1 of `forceH264`: collect the payload types of every
`a=rtpmap:` line containing `H264` (`parts[0].split(":")[1]` of the
space-split line). -/
def h264PayloadTypes (lines : List (List Char)) : List (List Char) :=
  lines.foldl
    (fun acc line =>
      if ("a=rtpmap:".toList).isPrefixOf line && containsSub ("H264".toList) line then
        addPT ((splitCh ':' ((splitCh ' ' line).headD [])).getD 1 []) acc
      else acc)
    []

/-- Step 2 of `forceH264`: extend the kept set with the RTX payload types
whose `apt=` refers to a kept H.264 payload type. -/
def codecsToKeep (lines : List (List Char)) (h264 : List (List Char)) : List (List Char) :=
  lines.foldl
    (fun acc line =>
      if ("a=fmtp:".toList).isPrefixOf line && containsSub ("apt=".toList) line then
        match aptMatch line with
        | some apt =>
          if apt ∈ h264 then
            addPT ((splitCh ':' ((splitCh ' ' line).headD [])).getD 1 []) acc
          else acc
        | none => acc
      else acc)
    h264

/-- The rewritten `m=video` line: the first three space-separated fields
of the trimmed line followed by the kept payload types, joined by
spaces. -/
def rebuiltMLine (keep : List (List Char)) (line : List Char) : List Char :=
  joinCh ' ' ((splitCh ' ' (trimL line)).take 3 ++
    ((splitCh ' ' (trimL line)).drop 3).filter (fun pt => pt ∈ keep))

/-- Step 3 of `forceH264`: rebuild the SDP lines, filtering the m=video
payload list and the per-codec attribute lines while inside the video
section.  The attribute branch reads `line.split(":")[1].split(" ")[0]`;
the JS `try`/`catch` keeps the line if that indexing throws, which can
only happen when the line has no colon. -/
def rebuildLines (keep : List (List Char)) : Bool → List (List Char) → List (List Char)
  | _, [] => []
  | inVideo, line :: rest =>
    if ("m=video".toList).isPrefixOf line then
      if ((splitCh ' ' (trimL line)).drop 3).filter (fun pt => pt ∈ keep) = [] then
        line :: rebuildLines keep true rest
      else rebuiltMLine keep line :: rebuildLines keep true rest
    else if inVideo &&
        (("a=rtpmap:".toList).isPrefixOf line || ("a=fmtp:".toList).isPrefixOf line ||
          ("a=rtcp-fb:".toList).isPrefixOf line) then
      match splitCh ':' line with
      | _ :: second :: _ =>
        if (splitCh ' ' second).headD [] ∈ keep then line :: rebuildLines keep true rest
        else rebuildLines keep true rest
      | _ => line :: rebuildLines keep true rest
    else if ("m=".toList).isPrefixOf line then line :: rebuildLines keep false rest
    else line :: rebuildLines keep inVideo rest

/-- `forceH264` of `src/client/webrtc-client.js`: collect H.264 and
associated RTX payload types, rebuild the SDP keeping only those in the
video section, and return the original SDP when no H.264 payload type
exists or when the rewrite loses the `m=video` line or every `H264`
mention. -/
def forceH264 (sdp : List Char) : List Char :=
  let lines := splitCRLF sdp
  let h264 := h264PayloadTypes lines
  if h264 = [] then sdp
  else
    let keep := codecsToKeep lines h264
    let newLines := rebuildLines keep false lines
    if newLines.any (fun l => ("m=video".toList).isPrefixOf l) &&
        newLines.any (fun l => containsSub ("H264".toList) l) then
      joinCRLF newLines
    else sdp

theorem containsSub_iff (pat s : List Char) : containsSub pat s = true ↔ pat <:+: s := by
  induction s with
  | nil =>
    simp [containsSub, List.isEmpty_iff, List.infix_nil]
  | cons c rest ih =>
    simp only [containsSub, Bool.or_eq_true, List.isPrefixOf_iff_prefix, ih,
      List.infix_cons_iff]

theorem splitCh_shape (sep : Char) (l : List Char) :
    ∃ l0 ls, splitCh sep l = l0 :: ls ∧ l0 <+: l ∧ ∀ p ∈ ls, p <:+: l := by
  induction l with
  | nil => exact ⟨[], [], rfl, List.nil_prefix, by simp⟩
  | cons c rest ih =>
    obtain ⟨l0, ls, heq, hpre, hmem⟩ := ih
    by_cases hc : c = sep
    · refine ⟨[], splitCh sep rest, by simp [splitCh, hc], List.nil_prefix, ?_⟩
      intro p hp
      rw [heq] at hp
      rcases List.mem_cons.mp hp with rfl | hp
      · exact List.infix_cons hpre.isInfix
      · exact List.infix_cons (hmem p hp)
    · refine ⟨c :: l0, ls, by simp [splitCh, hc, heq], List.cons_prefix_cons.mpr ⟨rfl, hpre⟩, ?_⟩
      intro p hp
      exact List.infix_cons (hmem p hp)

theorem splitCh_infix_of_mem (sep : Char) (l p : List Char) (hp : p ∈ splitCh sep l) :
    p <:+: l := by
  obtain ⟨l0, ls, heq, hpre, hmem⟩ := splitCh_shape sep l
  rw [heq] at hp
  rcases List.mem_cons.mp hp with rfl | hp
  · exact hpre.isInfix
  · exact hmem p hp

theorem trimL_infix_self (l : List Char) : trimL l <:+: l := by
  unfold trimL
  have h1 : l.dropWhile Char.isWhitespace <:+ l := List.dropWhile_suffix _
  have h2 : ((l.dropWhile Char.isWhitespace).reverse.dropWhile Char.isWhitespace).reverse <+:
      l.dropWhile Char.isWhitespace := by
    have h3 := List.reverse_prefix.mpr
      (show (l.dropWhile Char.isWhitespace).reverse.dropWhile Char.isWhitespace <:+
          (l.dropWhile Char.isWhitespace).reverse from List.dropWhile_suffix _)
    rwa [List.reverse_reverse] at h3
  exact h2.isInfix.trans h1.isInfix

theorem prefix_append_cons (p a b : List Char) (c : Char) (h : p <+: a ++ c :: b) :
    p <+: a ∨ c ∈ p := by
  induction a generalizing p with
  | nil =>
    cases p with
    | nil => exact Or.inl List.nil_prefix
    | cons d p2 =>
      obtain ⟨hdc, -⟩ := List.cons_prefix_cons.mp h
      exact Or.inr (by rw [hdc]; exact List.mem_cons_self _ _)
  | cons x a2 ih =>
    cases p with
    | nil => exact Or.inl List.nil_prefix
    | cons d p2 =>
      obtain ⟨hdx, hp2⟩ := List.cons_prefix_cons.mp h
      rcases ih p2 hp2 with h1 | h1
      · exact Or.inl (List.cons_prefix_cons.mpr ⟨hdx, h1⟩)
      · exact Or.inr (List.mem_cons_of_mem _ h1)

theorem infix_append_cons (p a b : List Char) (c : Char) (h : p <:+: a ++ c :: b) :
    p <:+: a ∨ p <:+: b ∨ c ∈ p := by
  induction a with
  | nil =>
    rcases List.infix_cons_iff.mp h with h1 | h1
    · cases p with
      | nil => exact Or.inl List.nil_infix
      | cons d p2 =>
        obtain ⟨hdc, -⟩ := List.cons_prefix_cons.mp h1
        exact Or.inr (Or.inr (by rw [hdc]; exact List.mem_cons_self _ _))
    · exact Or.inr (Or.inl h1)
  | cons x a2 ih =>
    rcases List.infix_cons_iff.mp h with h1 | h1
    · cases p with
      | nil => exact Or.inl List.nil_infix
      | cons d p2 =>
        obtain ⟨hdx, hp2⟩ := List.cons_prefix_cons.mp h1
        rcases prefix_append_cons p2 a2 b c hp2 with h2 | h2
        · exact Or.inl (List.cons_prefix_cons.mpr ⟨hdx, h2⟩).isInfix
        · exact Or.inr (Or.inr (List.mem_cons_of_mem _ h2))
    · rcases ih h1 with h2 | h2 | h2
      · exact Or.inl (List.infix_cons h2)
      · exact Or.inr (Or.inl h2)
      · exact Or.inr (Or.inr h2)

theorem containsSub_false_of_within (pat p l : List Char) (hl : containsSub pat l = false)
    (hp : p <:+: l) : containsSub pat p = false := by
  rw [Bool.eq_false_iff]
  intro htrue
  have := (containsSub_iff pat l).mpr (((containsSub_iff pat p).mp htrue).trans hp)
  rw [hl] at this
  cases this

theorem containsSub_joinCh (pat : List Char) (sep : Char) (hne : pat ≠ []) (hsep : sep ∉ pat)
    (parts : List (List Char)) (hparts : ∀ p ∈ parts, containsSub pat p = false) :
    containsSub pat (joinCh sep parts) = false := by
  induction parts with
  | nil =>
    simp [joinCh, containsSub, List.isEmpty_iff, hne]
  | cons l ls ih =>
    cases ls with
    | nil => exact hparts l (by simp)
    | cons l2 ls2 =>
      have hl := hparts l (by simp)
      have hrest : containsSub pat (joinCh sep (l2 :: ls2)) = false :=
        ih fun p hp => hparts p (List.mem_cons_of_mem _ hp)
      rw [show joinCh sep (l :: l2 :: ls2) = l ++ sep :: joinCh sep (l2 :: ls2) from rfl]
      rw [Bool.eq_false_iff]
      intro htrue
      rcases infix_append_cons pat l (joinCh sep (l2 :: ls2)) sep
          ((containsSub_iff _ _).mp htrue) with h | h | h
      · have := (containsSub_iff pat l).mpr h
        rw [hl] at this
        cases this
      · have := (containsSub_iff pat (joinCh sep (l2 :: ls2))).mpr h
        rw [hrest] at this
        cases this
      · exact hsep h

theorem splitCRLF_spec (l : List Char) :
    ∃ l0 ls, splitCRLF l = l0 :: ls ∧
      (l0 = [] ∨ l0.head? = l.head?) ∧
      containsSub ['\r', '\n'] l0 = false ∧
      ∀ p ∈ ls, containsSub ['\r', '\n'] p = false := by
  induction l using splitCRLF.induct with
  | case1 => exact ⟨[], [], rfl, Or.inl rfl, rfl, by simp⟩
  | case2 rest ih =>
    obtain ⟨l0, ls, heq, hhead, h0, hls⟩ := ih
    refine ⟨[], splitCRLF rest, rfl, Or.inl rfl, rfl, ?_⟩
    rw [heq]
    intro p hp
    rcases List.mem_cons.mp hp with rfl | hp
    · exact h0
    · exact hls p hp
  | case3 c rest hnm hnil ih =>
    obtain ⟨l0, ls, heq, -, -, -⟩ := ih
    rw [heq] at hnil
    cases hnil
  | case4 c rest hnm l0 ls heq ih =>
    obtain ⟨l0', ls', heq', hhead, h0, hls⟩ := ih
    rw [heq] at heq'
    injection heq' with h1 h2
    subst h1
    subst h2
    have hstep : splitCRLF (c :: rest) = (c :: l0) :: ls := by
      rw [splitCRLF.eq_3 c rest hnm, heq]
    refine ⟨c :: l0, ls, hstep, Or.inr rfl, ?_, hls⟩
    rw [show containsSub ['\r', '\n'] (c :: l0)
        = (List.isPrefixOf ['\r', '\n'] (c :: l0) || containsSub ['\r', '\n'] l0) from rfl]
    rw [h0, Bool.or_false, Bool.eq_false_iff]
    intro hpre
    obtain ⟨hc, htl⟩ := List.cons_prefix_cons.mp (List.isPrefixOf_iff_prefix.mp hpre)
    cases l0 with
    | nil => exact absurd (List.prefix_nil.mp htl) (by simp)
    | cons d l02 =>
      obtain ⟨hd, -⟩ := List.cons_prefix_cons.mp htl
      rcases hhead with h | h
      · cases h
      · cases rest with
        | nil => simp at h
        | cons e rest2 =>
          have hde : d = e := by simpa using h
          have he : e = '\n' := by rw [← hde]; exact hd.symm
          exact hnm rest2 hc.symm (by rw [he])

theorem splitCRLF_noCRLF (l p : List Char) (hp : p ∈ splitCRLF l) :
    containsSub ['\r', '\n'] p = false := by
  obtain ⟨l0, ls, heq, -, h0, hls⟩ := splitCRLF_spec l
  rw [heq] at hp
  rcases List.mem_cons.mp hp with rfl | hp
  · exact h0
  · exact hls p hp

theorem splitCRLF_eq_single (l : List Char) (h : containsSub ['\r', '\n'] l = false) :
    splitCRLF l = [l] := by
  induction l using splitCRLF.induct with
  | case1 => rfl
  | case2 rest ih =>
    exfalso
    simp [containsSub, List.isPrefixOf] at h
  | case3 c rest hnm hnil ih =>
    obtain ⟨l0, ls, heq, -, -, -⟩ := splitCRLF_spec rest
    rw [heq] at hnil
    cases hnil
  | case4 c rest hnm l0 ls heq ih =>
    have hrest : containsSub ['\r', '\n'] rest = false := by
      rw [show containsSub ['\r', '\n'] (c :: rest)
          = (List.isPrefixOf ['\r', '\n'] (c :: rest) || containsSub ['\r', '\n'] rest)
          from rfl] at h
      exact (Bool.or_eq_false_iff.mp h).2
    have hsingle := ih hrest
    rw [heq] at hsingle
    injection hsingle with h1 h2
    rw [splitCRLF.eq_3 c rest hnm, heq, h1, h2]

theorem splitCRLF_append (l t : List Char) (h : containsSub ['\r', '\n'] l = false) :
    splitCRLF (l ++ '\r' :: '\n' :: t) = l :: splitCRLF t := by
  induction l with
  | nil =>
    rw [List.nil_append, splitCRLF.eq_2]
  | cons c cs ih =>
    have hcs : containsSub ['\r', '\n'] cs = false := by
      rw [show containsSub ['\r', '\n'] (c :: cs)
          = (List.isPrefixOf ['\r', '\n'] (c :: cs) || containsSub ['\r', '\n'] cs)
          from rfl] at h
      exact (Bool.or_eq_false_iff.mp h).2
    have hguard : ∀ rest1, c = '\r' → cs ++ '\r' :: '\n' :: t = '\n' :: rest1 → False := by
      intro rest1 hc happ
      cases cs with
      | nil => simp at happ
      | cons d cs2 =>
        rw [List.cons_append] at happ
        injection happ with hd htl2
        subst hc
        subst hd
        simp [containsSub, List.isPrefixOf] at h
    rw [List.cons_append, splitCRLF.eq_3 c _ hguard, ih hcs]

theorem joinCRLF_splitCRLF (ls : List (List Char)) (hne : ls ≠ [])
    (hcl : ∀ p ∈ ls, containsSub ['\r', '\n'] p = false) :
    splitCRLF (joinCRLF ls) = ls := by
  induction ls with
  | nil => exact absurd rfl hne
  | cons l ls2 ih =>
    cases ls2 with
    | nil => exact splitCRLF_eq_single l (hcl l (by simp))
    | cons l2 ls3 =>
      rw [show joinCRLF (l :: l2 :: ls3) = l ++ '\r' :: '\n' :: joinCRLF (l2 :: ls3) from rfl]
      rw [splitCRLF_append _ _ (hcl l (by simp))]
      rw [ih (by simp) fun p hp => hcl p (List.mem_cons_of_mem _ hp)]

theorem rebuiltMLine_noCRLF (keep : List (List Char)) (line : List Char)
    (hline : containsSub ['\r', '\n'] line = false) :
    containsSub ['\r', '\n'] (rebuiltMLine keep line) = false := by
  unfold rebuiltMLine
  apply containsSub_joinCh _ _ (by simp) (by decide)
  intro p hp
  have hmem : p ∈ splitCh ' ' (trimL line) := by
    rcases List.mem_append.mp hp with h | h
    · exact List.take_subset _ _ h
    · exact List.drop_subset _ _ (List.mem_of_mem_filter h)
  exact containsSub_false_of_within _ _ _ hline
    ((splitCh_infix_of_mem ' ' _ _ hmem).trans (trimL_infix_self line))

theorem rebuildLines_noCRLF (keep : List (List Char)) :
    ∀ lines : List (List Char), (∀ l ∈ lines, containsSub ['\r', '\n'] l = false) →
      ∀ b : Bool, ∀ p ∈ rebuildLines keep b lines, containsSub ['\r', '\n'] p = false := by
  intro lines
  induction lines with
  | nil =>
    intro _ b p hp
    simp [rebuildLines] at hp
  | cons line rest ih =>
    intro hl b p hp
    have hline := hl line (List.mem_cons_self _ _)
    have hrest := fun l hlm => hl l (List.mem_cons_of_mem _ hlm)
    simp only [rebuildLines] at hp
    split at hp
    · split at hp
      · rcases List.mem_cons.mp hp with rfl | hp
        · exact hline
        · exact ih hrest true p hp
      · rcases List.mem_cons.mp hp with rfl | hp
        · exact rebuiltMLine_noCRLF keep line hline
        · exact ih hrest true p hp
    · split at hp
      · split at hp
        · split at hp
          · rcases List.mem_cons.mp hp with rfl | hp
            · exact hline
            · exact ih hrest true p hp
          · exact ih hrest true p hp
        · rcases List.mem_cons.mp hp with rfl | hp
          · exact hline
          · exact ih hrest true p hp
      · split at hp
        · rcases List.mem_cons.mp hp with rfl | hp
          · exact hline
          · exact ih hrest false p hp
        · rcases List.mem_cons.mp hp with rfl | hp
          · exact hline
          · exact ih hrest b p hp

theorem h264PayloadTypes_eq_nil (lines : List (List Char))
    (h : ∀ l ∈ lines,
      (("a=rtpmap:".toList).isPrefixOf l && containsSub ("H264".toList) l) = false) :
    h264PayloadTypes lines = [] := by
  unfold h264PayloadTypes
  suffices h2 : ∀ (ls : List (List Char)) (acc : List (List Char)),
      (∀ l ∈ ls,
        (("a=rtpmap:".toList).isPrefixOf l && containsSub ("H264".toList) l) = false) →
      ls.foldl
        (fun acc line =>
          if ("a=rtpmap:".toList).isPrefixOf line && containsSub ("H264".toList) line then
            addPT ((splitCh ':' ((splitCh ' ' line).headD [])).getD 1 []) acc
          else acc)
        acc = acc by
    exact h2 lines [] h
  intro ls
  induction ls with
  | nil => intro acc _; rfl
  | cons l ls2 ih =>
    intro acc hls
    rw [List.foldl_cons]
    have hc := hls l (List.mem_cons_self _ _)
    rw [hc]
    simp only [Bool.false_eq_true, if_false]
    exact ih acc fun l2 hl2 => hls l2 (List.mem_cons_of_mem _ hl2)

/-- C10: `forceH264` either returns its input unchanged or returns an SDP
whose CRLF-split lines still contain an `m=video` line and a line
mentioning `H264`; and when no `a=rtpmap:` line contains `H264`, it is
the identity. -/
theorem forceH264_safety (sdp : List Char) :
    (forceH264 sdp = sdp ∨
      ((splitCRLF (forceH264 sdp)).any (fun l => ("m=video".toList).isPrefixOf l) = true ∧
        (splitCRLF (forceH264 sdp)).any (fun l => containsSub ("H264".toList) l) = true)) ∧
    ((splitCRLF sdp).all
        (fun l => !(("a=rtpmap:".toList).isPrefixOf l && containsSub ("H264".toList) l))
        = true →
      forceH264 sdp = sdp) := by
  constructor
  · by_cases h1 : h264PayloadTypes (splitCRLF sdp) = []
    · left
      unfold forceH264
      rw [if_pos h1]
    · have hunf : forceH264 sdp =
          (if (rebuildLines (codecsToKeep (splitCRLF sdp) (h264PayloadTypes (splitCRLF sdp)))
                false (splitCRLF sdp)).any
                  (fun l => ("m=video".toList).isPrefixOf l) &&
              (rebuildLines (codecsToKeep (splitCRLF sdp) (h264PayloadTypes (splitCRLF sdp)))
                false (splitCRLF sdp)).any (fun l => containsSub ("H264".toList) l) then
            joinCRLF (rebuildLines
              (codecsToKeep (splitCRLF sdp) (h264PayloadTypes (splitCRLF sdp)))
              false (splitCRLF sdp))
          else sdp) := by
        unfold forceH264
        rw [if_neg h1]
      by_cases h2 : ((rebuildLines (codecsToKeep (splitCRLF sdp) (h264PayloadTypes (splitCRLF sdp)))
            false (splitCRLF sdp)).any (fun l => ("m=video".toList).isPrefixOf l) &&
          (rebuildLines (codecsToKeep (splitCRLF sdp) (h264PayloadTypes (splitCRLF sdp)))
            false (splitCRLF sdp)).any (fun l => containsSub ("H264".toList) l)) = true
      · right
        rw [hunf, if_pos h2]
        obtain ⟨ha1, ha2⟩ := Bool.and_eq_true_iff.mp h2
        have hnoCRLF : ∀ p ∈ rebuildLines
            (codecsToKeep (splitCRLF sdp) (h264PayloadTypes (splitCRLF sdp)))
            false (splitCRLF sdp), containsSub ['\r', '\n'] p = false :=
          rebuildLines_noCRLF _ _ (fun l hl => splitCRLF_noCRLF sdp l hl) false
        have hne : rebuildLines
            (codecsToKeep (splitCRLF sdp) (h264PayloadTypes (splitCRLF sdp)))
            false (splitCRLF sdp) ≠ [] := by
          obtain ⟨x, hx, -⟩ := List.any_eq_true.mp ha1
          intro hnil
          rw [hnil] at hx
          simp at hx
        rw [joinCRLF_splitCRLF _ hne hnoCRLF]
        exact ⟨ha1, ha2⟩
      · left
        rw [hunf, if_neg h2]
  · intro hall
    have h1 : h264PayloadTypes (splitCRLF sdp) = [] := by
      apply h264PayloadTypes_eq_nil
      intro l hl
      have h2 := List.all_eq_true.mp hall l hl
      rwa [Bool.not_eq_true'] at h2
    unfold forceH264
    rw [if_pos h1]

/-- Witness for C10: an SDP with no `a=rtpmap:` line is returned
unchanged. -/
theorem forceH264_safety_witness :
    ((splitCRLF ("v=0\r\nm=video 9 UDP 100".toList)).all
        (fun l => !(("a=rtpmap:".toList).isPrefixOf l && containsSub ("H264".toList) l))
        = true) ∧
    forceH264 ("v=0\r\nm=video 9 UDP 100".toList) = "v=0\r\nm=video 9 UDP 100".toList :=
  ⟨by decide, (forceH264_safety ("v=0\r\nm=video 9 UDP 100".toList)).2 (by decide)⟩

end Nimble
